import Mathlib

/-
  Verification of the geometric core of svg-annotator.

  The TypeScript sources are shallowly embedded as follows:
  * `Point`, `BoundingBox`, `TextBoundingBox` carry exact rational
    coordinates (the TS code stores IEEE doubles; all the operations on
    these types are field operations and comparisons, so ℚ models them
    exactly on rational inputs).
  * Functions whose bodies take square roots (`HullPadding.addPadding`,
    `TextCollisionDetector.calculatePositionScore`) are modelled over ℝ:
    `RPoint` has real coordinates and `Real.sqrt` stands for
    `Math.sqrt`.
  * `Math.atan2(y, x)` is `Complex.arg ⟨x, y⟩` (both return the angle of
    the vector `(x, y)` in `(-π, π]`).
  * Code that throws becomes `Except HullError`; the external
    collaborators (the `concaveman` library, the d3-shape line
    generator) are higher-order parameters of the functions that
    delegate to them.
-/

/-- A 2-D point with exact rational coordinates, modelling the TS
`Point {x: number, y: number}` of src/types.ts. -/
@[ext]
structure Point where
  x : ℚ
  y : ℚ
  deriving DecidableEq, Repr

/-- Axis-aligned rectangle, modelling `BoundingBox` of src/types.ts. -/
structure BoundingBox where
  x : ℚ
  y : ℚ
  width : ℚ
  height : ℚ
  deriving DecidableEq, Repr

/-- Text footprint, modelling `TextBoundingBox` of src/types.ts. -/
structure TextBoundingBox where
  text : String
  fontSize : ℚ
  fontFamily : String
  x : ℚ
  y : ℚ
  width : ℚ
  height : ℚ
  deriving DecidableEq, Repr

/-- TS structural subtyping lets a `TextBoundingBox` be used wherever a
`BoundingBox` is expected; this projection makes that coercion explicit. -/
def TextBoundingBox.toBox (t : TextBoundingBox) : BoundingBox :=
  ⟨t.x, t.y, t.width, t.height⟩

/-- Error taxonomy of the core (spec §7); the TS code throws `Error`
with distinguishing messages, modelled as distinct constructors. -/
inductive HullError where
  | insufficientPoints
  | insufficientUniquePoints
  | pathGenerationFailed
  deriving DecidableEq, Repr

namespace GeometryUtils

/-- GeometryUtils.rectanglesOverlap (src/geometryUtils.ts lines 46-53):
two rectangles overlap unless one is strictly to the left / right /
above / below the other (all four separation tests are strict `<`). -/
def rectanglesOverlap (rect1 rect2 : BoundingBox) : Bool :=
  !(decide (rect1.x + rect1.width < rect2.x) ||
    decide (rect2.x + rect2.width < rect1.x) ||
    decide (rect1.y + rect1.height < rect2.y) ||
    decide (rect2.y + rect2.height < rect1.y))

/-- Membership of a point in a closed axis-aligned rectangle; used to
state what the overlap test decides.  (Statement-side definition, not
from the source.) -/
def pointInRect (p : Point) (r : BoundingBox) : Prop :=
  r.x ≤ p.x ∧ p.x ≤ r.x + r.width ∧ r.y ≤ p.y ∧ p.y ≤ r.y + r.height

instance (p : Point) (r : BoundingBox) : Decidable (pointInRect p r) := by
  unfold pointInRect; infer_instance

end GeometryUtils

namespace TextCollisionDetector

/-- `private readonly collisionBuffer = 5` of src/index.ts. -/
def collisionBuffer : ℚ := 5

/-- `private readonly maxSearchDistance = 200` of src/index.ts. -/
def maxSearchDistance : ℚ := 200

/-- `private readonly distanceIncrement = 20` of src/index.ts. -/
def distanceIncrement : ℚ := 20

/-- The mutable fields of a `TextCollisionDetector` instance:
the extracted obstacle rectangles and the labels placed so far. -/
structure DetectorState where
  existingSvgElements : List BoundingBox
  existingTextLabels : List TextBoundingBox
  deriving DecidableEq, Repr

/-- TextCollisionDetector.calculateTextBoundingBox (src/index.ts lines
236-257): width ≈ `text.length * fontSize * 0.6`, height = fontSize,
centred on the given anchor. -/
def calculateTextBoundingBox (text : String) (fontSize : ℚ)
    (fontFamily : String) (position : Point) : TextBoundingBox :=
  let avgCharWidth := fontSize * (6 / 10)
  let textWidth := (text.length : ℚ) * avgCharWidth
  let textHeight := fontSize
  { text := text, fontSize := fontSize, fontFamily := fontFamily,
    x := position.x - textWidth / 2,
    y := position.y - textHeight / 2,
    width := textWidth, height := textHeight }

/-- TextCollisionDetector.rectanglesOverlap (src/index.ts lines
262-269); its body is identical to GeometryUtils.rectanglesOverlap. -/
def rectanglesOverlap (rect1 rect2 : BoundingBox) : Bool :=
  !(decide (rect1.x + rect1.width < rect2.x) ||
    decide (rect2.x + rect2.width < rect1.x) ||
    decide (rect1.y + rect1.height < rect2.y) ||
    decide (rect2.y + rect2.height < rect1.y))

/-- TextCollisionDetector.calculateOverlapArea (src/index.ts lines
436-450). -/
def calculateOverlapArea (rect1 rect2 : BoundingBox) : ℚ :=
  let overlapLeft := max rect1.x rect2.x
  let overlapRight := min (rect1.x + rect1.width) (rect2.x + rect2.width)
  let overlapTop := max rect1.y rect2.y
  let overlapBottom := min (rect1.y + rect1.height) (rect2.y + rect2.height)
  if overlapLeft < overlapRight ∧ overlapTop < overlapBottom then
    (overlapRight - overlapLeft) * (overlapBottom - overlapTop)
  else 0

/-- The 8 compass direction vectors of generateCandidatePositions
(src/index.ts lines 308-317), in source order:
N, NE, E, SE, S, SW, W, NW (y grows downward in SVG). -/
def directions : List Point :=
  [⟨0, -1⟩, ⟨1, -1⟩, ⟨1, 0⟩, ⟨1, 1⟩, ⟨0, 1⟩, ⟨-1, 1⟩, ⟨-1, 0⟩, ⟨-1, -1⟩]

/-- The iteration values of the `for (distance = distanceIncrement;
distance <= maxSearchDistance; distance += distanceIncrement)` loop of
src/index.ts lines 302-306, i.e. 20, 40, …, 200. -/
def ringDistances : List ℚ :=
  (List.range 10).map (fun (k : ℕ) => distanceIncrement * ((k : ℚ) + 1))

/-- TextCollisionDetector.generateCandidatePositions (src/index.ts
lines 295-328): the centroid itself, then for each loop distance the 8
compass offsets scaled by that distance. -/
def generateCandidatePositions (centroid : Point) : List Point :=
  centroid :: ringDistances.flatMap (fun distance =>
    directions.map (fun dir =>
      ⟨centroid.x + dir.x * distance, centroid.y + dir.y * distance⟩))

/-- TextCollisionDetector.calculatePositionScore (src/index.ts lines
379-431).  Counts obstacle and placed-label collisions of the text
footprint, accumulates overlap area (label overlaps weighted ×2), adds
`distance * 3` where distance is the Euclidean distance to the
preferred position (`Math.sqrt` forces the result into ℝ). -/
noncomputable def calculatePositionScore (st : DetectorState)
    (text : String) (fontSize : ℚ) (fontFamily : String)
    (position preferredPosition : Point) : ℝ :=
  let textBox := (calculateTextBoundingBox text fontSize fontFamily position).toBox
  let collisionCount : ℚ :=
    ((st.existingSvgElements.filter (fun e => rectanglesOverlap textBox e)).length : ℚ)
  let textCollisionCount : ℚ :=
    ((st.existingTextLabels.filter (fun l => rectanglesOverlap textBox l.toBox)).length : ℚ)
  let totalCollisionArea : ℚ :=
    ((st.existingSvgElements.filter (fun e => rectanglesOverlap textBox e)).map
      (fun e => calculateOverlapArea textBox e)).sum +
    ((st.existingTextLabels.filter (fun l => rectanglesOverlap textBox l.toBox)).map
      (fun l => calculateOverlapArea textBox l.toBox * 2)).sum
  let distance : ℝ :=
    Real.sqrt (((position.x - preferredPosition.x) * (position.x - preferredPosition.x) +
      (position.y - preferredPosition.y) * (position.y - preferredPosition.y) : ℚ) : ℝ)
  let collisionPenalty : ℚ :=
    collisionCount * 50 + textCollisionCount * 300 + totalCollisionArea * (5 / 100)
  let distancePenalty : ℝ := distance * 3
  distancePenalty + (collisionPenalty : ℝ)

/-- The loop body of findNearestNonCollidingPosition (src/index.ts
lines 349-362): keep the running best (position, bestScore) pair,
replacing it only on a strictly smaller score. -/
noncomputable def selectStep (score : Point → ℝ) (best : Point × ℝ)
    (candidate : Point) : Point × ℝ :=
  if score candidate < best.2 then (candidate, score candidate) else best

/-- TextCollisionDetector.findNearestNonCollidingPosition (src/index.ts
lines 333-373): fold over the candidates keeping the first strictly
better score (initialised with the preferred position and its score),
then register the chosen footprint in the placed-label list. -/
noncomputable def findNearestNonCollidingPosition (st : DetectorState)
    (text : String) (fontSize : ℚ) (fontFamily : String)
    (preferredPosition : Point) : Point × DetectorState :=
  let candidates := generateCandidatePositions preferredPosition
  let best := candidates.foldl
    (selectStep (fun candidate =>
      calculatePositionScore st text fontSize fontFamily
        candidate preferredPosition))
    (preferredPosition,
      calculatePositionScore st text fontSize fontFamily
        preferredPosition preferredPosition)
  let chosenBox := calculateTextBoundingBox text fontSize fontFamily best.1
  (best.1, { st with existingTextLabels := st.existingTextLabels ++ [chosenBox] })

/-- TextCollisionDetector.reset (src/index.ts lines 455-458): clear the
placed-label list, keep the extracted SVG elements. -/
def reset (st : DetectorState) : DetectorState :=
  { st with existingTextLabels := [] }

end TextCollisionDetector

namespace SplineGenerator

/-- The five supported curve families (src/types.ts `CurveType`). -/
inductive CurveType where
  | linear
  | catmullRom
  | cardinal
  | basis
  | basisClosed
  deriving DecidableEq, Repr

/-- SplineConfig of src/types.ts. -/
structure SplineConfig where
  type : CurveType
  tension : Option ℚ
  alpha : Option ℚ
  deriving DecidableEq, Repr

/-- SplineResult of src/types.ts (pathData kept abstract: d3-shape
produces an SVG path string). -/
structure SplineResult (PathData : Type) where
  pathData : PathData
  curveType : CurveType
  originalPoints : List Point

/-- The closure test of SplineGenerator.generateSpline (src/
splineGenerator.ts lines 27-30): the first and last points differ in x
or in y. -/
def needsClosure (points : List Point) : Bool :=
  decide ((points.headD ⟨0, 0⟩).x ≠ (points.getLastD ⟨0, 0⟩).x) ||
  decide ((points.headD ⟨0, 0⟩).y ≠ (points.getLastD ⟨0, 0⟩).y)

/-- Lines 32-34 of src/splineGenerator.ts: append the first point when
the path needs closure (the d3Points list that is handed to the line
generator; the Point → [x, y] pair conversion is the identity on the
data and is omitted). -/
def closeIfNeeded (points : List Point) : List Point :=
  if needsClosure points then points ++ [points.headD ⟨0, 0⟩] else points

/-- SplineGenerator.generateSpline (src/splineGenerator.ts lines
18-55).  The d3-shape line generator is an external collaborator and is
passed in as `gen`; it receives the config (curve family, tension,
alpha) and the closed point sequence, and may fail (d3 returns null). -/
def generateSpline {PathData : Type}
    (gen : SplineConfig → List Point → Option PathData)
    (points : List Point) (config : SplineConfig) :
    Except HullError (SplineResult PathData) :=
  if points.length < 3 then .error .insufficientPoints
  else
    match gen config (closeIfNeeded points) with
    | none => .error .pathGenerationFailed
    | some pd => .ok ⟨pd, config.type, points⟩

end SplineGenerator

namespace HullCalculator

/-- HullCalculator.removeDuplicatePoints (src/hullCalculator.ts lines
56-75) with the default tolerance 0.001: keep a point unless some
already-kept point is within the tolerance on both axes. -/
def removeDuplicatePoints (points : List Point) : List Point :=
  points.foldl (fun unique point =>
    if unique.any (fun existing =>
        decide (|existing.x - point.x| < 1 / 1000) &&
        decide (|existing.y - point.y| < 1 / 1000)) then
      unique
    else unique ++ [point]) []

/-- HullCalculator.calculatePolygonArea (src/hullCalculator.ts lines
80-93): half the signed shoelace sum; the `(i+1) % n` successor is the
rotation of the list by one. -/
def calculatePolygonArea (points : List Point) : ℚ :=
  if points.length < 3 then 0
  else ((points.zip (points.rotate 1)).map
    (fun pq => pq.1.x * pq.2.y - pq.2.x * pq.1.y)).sum / 2

/-- HullCalculator.calculatePolygonPerimeter (src/hullCalculator.ts
lines 98-112): sum of consecutive edge lengths including the closing
edge (again via rotation by one). -/
noncomputable def calculatePolygonPerimeter (points : List Point) : ℝ :=
  if points.length < 2 then 0
  else ((points.zip (points.rotate 1)).map (fun pq =>
    Real.sqrt (((pq.2.x - pq.1.x) * (pq.2.x - pq.1.x) +
      (pq.2.y - pq.1.y) * (pq.2.y - pq.1.y) : ℚ) : ℝ))).sum

/-- Concave hull result (src/types.ts `ConcaveHullResult`). -/
structure ConcaveHullResult where
  points : List Point
  area : ℚ
  perimeter : ℝ

/-- HullCalculator.calculateConcaveHull (src/hullCalculator.ts lines
12-51).  The boundary tracing itself is delegated to the external
`concaveman` library (spec §4.1 calls it an external capability), so it
is a parameter `concaveman` here; the guards, the point conversions and
the area/perimeter derivation are the in-repo code. -/
noncomputable def calculateConcaveHull
    (concaveman : List (ℚ × ℚ) → ℚ → ℚ → List (ℚ × ℚ))
    (points : List Point) (concavity lengthThreshold : ℚ) :
    Except HullError ConcaveHullResult :=
  if points.length < 3 then .error .insufficientPoints
  else
    let uniquePoints := removeDuplicatePoints points
    if uniquePoints.length < 3 then .error .insufficientUniquePoints
    else
      let inputPoints := uniquePoints.map (fun p => (p.x, p.y))
      let hullCoords := concaveman inputPoints concavity lengthThreshold
      let hullPoints := hullCoords.map (fun c => Point.mk c.1 c.2)
      .ok ⟨hullPoints, |calculatePolygonArea hullPoints|,
        calculatePolygonPerimeter hullPoints⟩

/-- HullCalculator.crossProduct (src/hullCalculator.ts lines 182-184). -/
def crossProduct (o a b : Point) : ℚ :=
  (a.x - o.x) * (b.y - o.y) - (a.y - o.y) * (b.x - o.x)

/-- The polar angle of `p` around `start` used by the comparator on
src/hullCalculator.ts line 153: `Math.atan2(p.y - start.y, p.x -
start.x)`, i.e. the argument of the complex number
`(p.x - start.x) + (p.y - start.y)·i`. -/
noncomputable def angle (start p : Point) : ℝ :=
  Complex.arg ⟨((p.x - start.x : ℚ) : ℝ), ((p.y - start.y : ℚ) : ℝ)⟩

/-- The comparator of src/hullCalculator.ts lines 152-156 as a Boolean
order relation (`angleA - angleB ≤ 0`). -/
noncomputable def angleLE (start a b : Point) : Bool :=
  @decide (angle start a ≤ angle start b) (Real.decidableLE _ _)

/-- Lines 142-147 of src/hullCalculator.ts: fold selecting the
bottom-most point, ties broken towards the smaller x (initialised with
`uniquePoints[0]`). -/
def findStart (points : List Point) : Point :=
  points.foldl (fun start point =>
    if point.y < start.y ∨ (point.y = start.y ∧ point.x < start.x) then point
    else start)
    (points.headD ⟨0, 0⟩)

/-- Lines 150-156 of src/hullCalculator.ts: drop the start point, sort
the rest by polar angle around it.  The JS filter `p !== start` is
reference inequality, but deduplication has already removed any point
equal in value to `start` (duplicates lie within the tolerance), so
filtering by value removes exactly the same single occurrence.  The JS
comparator sort is modelled by mergeSort with the same ordering
(stability is irrelevant to the claims proved below). -/
noncomputable def sortedByAngle (start : Point) (points : List Point) : List Point :=
  (points.filter (fun p => decide (p ≠ start))).mergeSort (angleLE start)

/-- The inner `while` of the Graham scan (src/hullCalculator.ts lines
163-172): pop the stack top while the last two stack points and the
candidate fail to make a strict left turn.  The stack is kept
top-first. -/
def popWhile (q : Point) : List Point → List Point
  | t :: s :: rest =>
    if crossProduct s t q ≤ 0 then popWhile q (s :: rest) else t :: s :: rest
  | l => l

/-- One iteration of the scan loop (lines 161-174): pop, then push the
candidate. -/
def grahamStep (stack : List Point) (q : Point) : List Point :=
  q :: popWhile q stack

/-- The full scan (lines 159-174) over the angularly sorted points,
starting from the stack `[start]`; the stack is top-first, so the hull
in source order is its reverse. -/
def scanStack (start : Point) (sortedPoints : List Point) : List Point :=
  sortedPoints.foldl grahamStep [start]

/-- The convex hull returned on the success path of
HullCalculator.calculateConvexHull (src/hullCalculator.ts lines
133-176). -/
noncomputable def convexHullPoints (points : List Point) : List Point :=
  let uniquePoints := removeDuplicatePoints points
  let start := findStart uniquePoints
  (scanStack start (sortedByAngle start uniquePoints)).reverse

/-- HullCalculator.calculateConvexHull (src/hullCalculator.ts lines
126-177) including its two precondition guards. -/
noncomputable def calculateConvexHull (points : List Point) :
    Except HullError (List Point) :=
  if points.length < 3 then .error .insufficientPoints
  else if (removeDuplicatePoints points).length < 3 then
    .error .insufficientUniquePoints
  else .ok (convexHullPoints points)

/-- The start point is weakly below-left of `p` in the (y, x)
lexicographic order used to pick the scan anchor (statement-side
definition). -/
def belowLeftLE (s p : Point) : Prop :=
  s.y < p.y ∨ (s.y = p.y ∧ s.x ≤ p.x)

/-- `p` lies strictly inside the closed upper half-plane around the
start point: strictly above it, or at the same height strictly to the
right (statement-side definition; this is what minimality of the start
point gives for every other unique point). -/
def aboveStart (s p : Point) : Prop :=
  s.y < p.y ∨ (s.y = p.y ∧ s.x < p.x)

/-- Every three consecutive stack entries make a strict
counter-clockwise turn in hull order; the stack is stored top-first,
so the hull-order triple of `a :: b :: c :: _` is `(c, b, a)`
(statement-side definition for the scan invariant). -/
def StackCCW : List Point → Prop
  | a :: b :: c :: rest => 0 < crossProduct c b a ∧ StackCCW (b :: c :: rest)
  | _ => True

end HullCalculator

/-- A 2-D point with real coordinates, for the square-root-valued part
of the pipeline (HullPadding). -/
structure RPoint where
  x : ℝ
  y : ℝ

namespace GeometryUtils

/-- GeometryUtils.calculateCentroid (src/geometryUtils.ts lines 9-21)
over real points, as consumed by HullPadding.addPadding. -/
noncomputable def calculateCentroid (points : List RPoint) : RPoint :=
  if points.length = 0 then ⟨0, 0⟩
  else ⟨(points.map RPoint.x).sum / points.length,
        (points.map RPoint.y).sum / points.length⟩

/-- Euclidean distance between two real points (statement-side helper;
matches the `Math.sqrt(dx*dx + dy*dy)` pattern of the source). -/
noncomputable def ptDist (p q : RPoint) : ℝ :=
  Real.sqrt ((p.x - q.x) * (p.x - q.x) + (p.y - q.y) * (p.y - q.y))

end GeometryUtils

namespace HullPadding

/-- The per-point body of the map in HullPadding.addPadding
(src/hullPadding.ts lines 20-32): leave zero-distance points alone,
otherwise scale the centroid offset by `(distance + padding) /
distance`. -/
noncomputable def expandPoint (centroid : RPoint) (padding : ℝ) (point : RPoint) : RPoint :=
  let dx := point.x - centroid.x
  let dy := point.y - centroid.y
  let distance := Real.sqrt (dx * dx + dy * dy)
  if distance = 0 then point
  else
    let scale := (distance + padding) / distance
    ⟨centroid.x + dx * scale, centroid.y + dy * scale⟩

/-- HullPadding.addPadding (src/hullPadding.ts lines 11-33): identity
for padding ≤ 0; otherwise expand every point away from the centroid
of the input boundary. -/
noncomputable def addPadding (points : List RPoint) (padding : ℝ) : List RPoint :=
  if padding ≤ 0 then points
  else points.map (expandPoint (GeometryUtils.calculateCentroid points) padding)

end HullPadding

/-! ## Claim theorems (easy group, draft) -/

/-- C10: `GeometryUtils.calculateCentroid` applied to the empty point
list returns the point (0, 0): the guard returns early and the
division by the point count is reached only for non-empty input, so
the function is total. -/
theorem C10_calculateCentroid_empty :
    GeometryUtils.calculateCentroid [] = ⟨0, 0⟩ := by
  simp [GeometryUtils.calculateCentroid]

/-- C8: `TextCollisionDetector.reset` empties the placed-label history
and leaves the externally extracted obstacle rectangles unchanged. -/
theorem C8_reset_clears_only_labels (st : TextCollisionDetector.DetectorState) :
    (TextCollisionDetector.reset st).existingTextLabels = [] ∧
    (TextCollisionDetector.reset st).existingSvgElements = st.existingSvgElements :=
  ⟨rfl, rfl⟩

/-- C4: fewer than 3 input points makes concave hull construction,
convex hull construction and spline generation all fail with the
insufficient-points error. -/
theorem C4_fewer_than_three_points_error
    (concaveman : List (ℚ × ℚ) → ℚ → ℚ → List (ℚ × ℚ))
    {PathData : Type}
    (gen : SplineGenerator.SplineConfig → List Point → Option PathData)
    (points : List Point) (concavity lengthThreshold : ℚ)
    (config : SplineGenerator.SplineConfig)
    (h : points.length < 3) :
    HullCalculator.calculateConcaveHull concaveman points concavity lengthThreshold
      = .error .insufficientPoints ∧
    HullCalculator.calculateConvexHull points = .error .insufficientPoints ∧
    SplineGenerator.generateSpline gen points config = .error .insufficientPoints := by
  refine ⟨?_, ?_, ?_⟩ <;>
    simp [HullCalculator.calculateConcaveHull, HullCalculator.calculateConvexHull,
      SplineGenerator.generateSpline, h]

/-- Concrete instance discharging the hypothesis of
C4_fewer_than_three_points_error. -/
theorem C4_witness :
    ([(⟨0, 0⟩ : Point), ⟨1, 1⟩].length < 3) ∧
    HullCalculator.calculateConvexHull [⟨0, 0⟩, ⟨1, 1⟩] = .error .insufficientPoints := by
  have h : ([(⟨0, 0⟩ : Point), ⟨1, 1⟩]).length < 3 := by decide
  exact ⟨h, (C4_fewer_than_three_points_error (fun l _ _ => l) (fun _ l => some l)
    _ 0 0 ⟨.linear, none, none⟩ h).2.1⟩

/-- C7: for a boundary of at least 3 points, `generateSpline`
interpolates the sequence with the first point appended when first and
last differ, and the unchanged sequence when they coincide. -/
theorem C7_spline_closure {PathData : Type}
    (gen : SplineGenerator.SplineConfig → List Point → Option PathData)
    (points : List Point) (config : SplineGenerator.SplineConfig)
    (h3 : 3 ≤ points.length) :
    (points.headD ⟨0, 0⟩ ≠ points.getLastD ⟨0, 0⟩ →
      SplineGenerator.generateSpline gen points config =
        match gen config (points ++ [points.headD ⟨0, 0⟩]) with
        | none => .error .pathGenerationFailed
        | some pd => .ok ⟨pd, config.type, points⟩) ∧
    (points.headD ⟨0, 0⟩ = points.getLastD ⟨0, 0⟩ →
      SplineGenerator.generateSpline gen points config =
        match gen config points with
        | none => .error .pathGenerationFailed
        | some pd => .ok ⟨pd, config.type, points⟩) := by
  have hlen : ¬(points.length < 3) := by omega
  constructor
  · intro hne
    have hclose : SplineGenerator.needsClosure points = true := by
      unfold SplineGenerator.needsClosure
      simp only [Bool.or_eq_true, decide_eq_true_eq]
      rcases eq_or_ne (points.headD ⟨0, 0⟩).x (points.getLastD ⟨0, 0⟩).x with hx | hx
      · rcases eq_or_ne (points.headD ⟨0, 0⟩).y (points.getLastD ⟨0, 0⟩).y with hy | hy
        · exact absurd (Point.ext hx hy) hne
        · exact Or.inr hy
      · exact Or.inl hx
    simp [SplineGenerator.generateSpline, SplineGenerator.closeIfNeeded, hlen, hclose]
  · intro heq
    have hclose : SplineGenerator.needsClosure points = false := by
      unfold SplineGenerator.needsClosure
      rw [heq]
      simp
    simp [SplineGenerator.generateSpline, SplineGenerator.closeIfNeeded, hlen, hclose]

/-- Concrete instance discharging the hypotheses of C7_spline_closure:
an open triangle gets its first point appended. -/
theorem C7_witness :
    3 ≤ ([(⟨0, 0⟩ : Point), ⟨1, 0⟩, ⟨0, 1⟩]).length ∧
    SplineGenerator.generateSpline (fun _ l => some l)
      [⟨0, 0⟩, ⟨1, 0⟩, ⟨0, 1⟩] ⟨.linear, none, none⟩ =
      .ok ⟨[⟨0, 0⟩, ⟨1, 0⟩, ⟨0, 1⟩, ⟨0, 0⟩], .linear, [⟨0, 0⟩, ⟨1, 0⟩, ⟨0, 1⟩]⟩ := by
  have h3 : 3 ≤ ([(⟨0, 0⟩ : Point), ⟨1, 0⟩, ⟨0, 1⟩]).length := by decide
  have hne : ([(⟨0, 0⟩ : Point), ⟨1, 0⟩, ⟨0, 1⟩]).headD ⟨0, 0⟩ ≠
      ([(⟨0, 0⟩ : Point), ⟨1, 0⟩, ⟨0, 1⟩]).getLastD ⟨0, 0⟩ := by
    intro h
    have hy := congrArg Point.y h
    norm_num [List.getLastD] at hy
  refine ⟨h3, ?_⟩
  have hmain := (C7_spline_closure (fun _ l => some l) _ ⟨.linear, none, none⟩ h3).1 hne
  simpa using hmain

/-- C9: the rectangle overlap test treats touching as overlap: any
common point of the two closed rectangles (in particular a shared edge
or corner) makes it return true, and a false answer means the
rectangles are strictly separated (no common closed point); the
TextCollisionDetector copy agrees with the GeometryUtils one. -/
theorem C9_touching_rectangles_overlap (rect1 rect2 : BoundingBox) :
    ((∃ p, GeometryUtils.pointInRect p rect1 ∧ GeometryUtils.pointInRect p rect2) →
      GeometryUtils.rectanglesOverlap rect1 rect2 = true) ∧
    (GeometryUtils.rectanglesOverlap rect1 rect2 = false →
      ∀ p, ¬(GeometryUtils.pointInRect p rect1 ∧ GeometryUtils.pointInRect p rect2)) ∧
    TextCollisionDetector.rectanglesOverlap rect1 rect2 =
      GeometryUtils.rectanglesOverlap rect1 rect2 := by
  have key : ∀ p, GeometryUtils.pointInRect p rect1 → GeometryUtils.pointInRect p rect2 →
      GeometryUtils.rectanglesOverlap rect1 rect2 = true := by
    rintro p ⟨a1, a2, a3, a4⟩ ⟨b1, b2, b3, b4⟩
    unfold GeometryUtils.rectanglesOverlap
    simp only [Bool.not_eq_true', Bool.or_eq_false_iff, decide_eq_false_iff_not, not_lt]
    refine ⟨⟨⟨?_, ?_⟩, ?_⟩, ?_⟩ <;> linarith
  refine ⟨fun ⟨p, h1, h2⟩ => key p h1 h2, fun hfalse p ⟨h1, h2⟩ => ?_, rfl⟩
  rw [key p h1 h2] at hfalse
  exact absurd hfalse (by simp)

/-- C5 counterexample: the second ring candidate (NE of the first
ring) is (20, -20), whose Euclidean distance to the anchor is 20·√2,
so it does not lie on the ring of radius 20. -/
theorem C5_counterexample :
    (TextCollisionDetector.generateCandidatePositions ⟨0, 0⟩).getD 2 ⟨0, 0⟩ = ⟨20, -20⟩ ∧
    ((TextCollisionDetector.generateCandidatePositions ⟨0, 0⟩).getD 2 ⟨0, 0⟩).x ^ 2 +
      ((TextCollisionDetector.generateCandidatePositions ⟨0, 0⟩).getD 2 ⟨0, 0⟩).y ^ 2 ≠
      20 ^ 2 := by
  constructor <;>
    norm_num [TextCollisionDetector.generateCandidatePositions,
      TextCollisionDetector.ringDistances, TextCollisionDetector.directions,
      TextCollisionDetector.distanceIncrement, List.range_succ]

/-- Concrete instance discharging the hypothesis of
C9_touching_rectangles_overlap: two rectangles sharing only the corner
(2, 2) are reported as overlapping. -/
theorem C9_witness :
    GeometryUtils.rectanglesOverlap ⟨0, 0, 2, 2⟩ ⟨2, 2, 1, 1⟩ = true :=
  (C9_touching_rectangles_overlap ⟨0, 0, 2, 2⟩ ⟨2, 2, 1, 1⟩).1
    ⟨⟨2, 2⟩, by norm_num [GeometryUtils.pointInRect], by norm_num [GeometryUtils.pointInRect]⟩

/-- Each compass-direction offset moves a point by exactly its scale
value in Chebyshev distance. -/
theorem compassOffsetChebyshev (cx cy D : ℚ) (hD : 0 ≤ D) (p : Point)
    (hp : p ∈ TextCollisionDetector.directions) :
    max |cx + p.x * D - cx| |cy + p.y * D - cy| = D := by
  fin_cases hp <;>
    norm_num [abs_neg, abs_of_nonneg hD, max_eq_right, max_eq_left, max_self, hD]

/-- C5 (amended): the candidate list is exactly the preferred anchor
followed by, for each ring index k < 10, the 8 compass-direction
offsets (N, NE, E, SE, S, SW, W, NW as integer unit vectors) scaled by
the ring value 20·(k+1); every non-anchor candidate lies at Chebyshev
distance 20·(k+1) from the anchor for some k < 10 (the four diagonal
candidates of a ring are at Euclidean distance 20·(k+1)·√2, not
20·(k+1)). -/
theorem C5_candidate_positions (c : Point) :
    TextCollisionDetector.generateCandidatePositions c =
      c :: (List.range 10).flatMap (fun (k : ℕ) =>
        TextCollisionDetector.directions.map (fun dir =>
          ⟨c.x + dir.x * (20 * ((k : ℚ) + 1)),
           c.y + dir.y * (20 * ((k : ℚ) + 1))⟩)) ∧
    (TextCollisionDetector.generateCandidatePositions c).length = 81 ∧
    ∀ q ∈ TextCollisionDetector.generateCandidatePositions c,
      q = c ∨ ∃ k : ℕ, k < 10 ∧ max |q.x - c.x| |q.y - c.y| = 20 * ((k : ℚ) + 1) := by
  refine ⟨?_, ?_, ?_⟩
  · simp only [TextCollisionDetector.generateCandidatePositions,
      TextCollisionDetector.ringDistances, TextCollisionDetector.distanceIncrement,
      List.flatMap_def, List.map_map]
    rfl
  · norm_num [TextCollisionDetector.generateCandidatePositions,
      TextCollisionDetector.ringDistances, TextCollisionDetector.directions,
      List.range_succ]
  · intro q hq
    simp only [TextCollisionDetector.generateCandidatePositions, List.mem_cons,
      List.mem_flatMap, List.mem_map] at hq
    rcases hq with rfl | ⟨d, hd, p, hp, rfl⟩
    · exact Or.inl rfl
    · rw [TextCollisionDetector.ringDistances] at hd
      obtain ⟨k, hk, rfl⟩ := List.mem_map.mp hd
      rw [List.mem_range] at hk
      refine Or.inr ⟨k, hk, ?_⟩
      have hD : (0 : ℚ) ≤ TextCollisionDetector.distanceIncrement * ((k : ℚ) + 1) := by
        rw [TextCollisionDetector.distanceIncrement]; positivity
      rw [compassOffsetChebyshev c.x c.y _ hD p hp, TextCollisionDetector.distanceIncrement]

/-- Concrete instance discharging the membership hypothesis of
C5_candidate_positions: the first-ring NE candidate of anchor (0,0). -/
theorem C5_witness :
    (⟨20, -20⟩ : Point) = (⟨0, 0⟩ : Point) ∨
    ∃ k : ℕ, k < 10 ∧
      max |(⟨20, -20⟩ : Point).x - (⟨0, 0⟩ : Point).x|
        |(⟨20, -20⟩ : Point).y - (⟨0, 0⟩ : Point).y| = 20 * ((k : ℚ) + 1) :=
  (C5_candidate_positions ⟨0, 0⟩).2.2 ⟨20, -20⟩ (by
    norm_num [TextCollisionDetector.generateCandidatePositions,
      TextCollisionDetector.ringDistances, TextCollisionDetector.directions,
      TextCollisionDetector.distanceIncrement, List.range_succ])

/-! ## Padding lemmas -/

/-- The square root in expandPoint is the distance to the centroid. -/
theorem expandPoint_sqrt_eq (c p : RPoint) :
    Real.sqrt ((p.x - c.x) * (p.x - c.x) + (p.y - c.y) * (p.y - c.y)) =
      GeometryUtils.ptDist p c := rfl

/-- A point at distance zero from the centroid is left unchanged. -/
theorem expandPoint_of_dist_zero (c : RPoint) (padding : ℝ) (p : RPoint)
    (h : GeometryUtils.ptDist p c = 0) :
    HullPadding.expandPoint c padding p = p := by
  show (if Real.sqrt ((p.x - c.x) * (p.x - c.x) + (p.y - c.y) * (p.y - c.y)) = 0
    then p else _) = p
  rw [expandPoint_sqrt_eq]
  exact if_pos h

/-- A point at non-zero distance is scaled by `(distance + padding) /
distance` away from the centroid. -/
theorem expandPoint_of_dist_ne_zero (c : RPoint) (padding : ℝ) (p : RPoint)
    (h : GeometryUtils.ptDist p c ≠ 0) :
    HullPadding.expandPoint c padding p =
      ⟨c.x + (p.x - c.x) * ((GeometryUtils.ptDist p c + padding) / GeometryUtils.ptDist p c),
       c.y + (p.y - c.y) * ((GeometryUtils.ptDist p c + padding) / GeometryUtils.ptDist p c)⟩ := by
  show (if Real.sqrt ((p.x - c.x) * (p.x - c.x) + (p.y - c.y) * (p.y - c.y)) = 0
    then p else _) = _
  rw [expandPoint_sqrt_eq, if_neg h]

/-- Distance to the centroid is nonnegative. -/
theorem ptDist_nonneg (p c : RPoint) : 0 ≤ GeometryUtils.ptDist p c :=
  Real.sqrt_nonneg _

/-- Scaling the centroid offset of a point by a nonnegative factor
scales its centroid distance by that factor. -/
theorem ptDist_scale (c p : RPoint) (t : ℝ) (ht : 0 ≤ t) :
    GeometryUtils.ptDist ⟨c.x + (p.x - c.x) * t, c.y + (p.y - c.y) * t⟩ c =
      GeometryUtils.ptDist p c * t := by
  unfold GeometryUtils.ptDist
  rw [show (c.x + (p.x - c.x) * t - c.x) * (c.x + (p.x - c.x) * t - c.x) +
        (c.y + (p.y - c.y) * t - c.y) * (c.y + (p.y - c.y) * t - c.y) =
      ((p.x - c.x) * (p.x - c.x) + (p.y - c.y) * (p.y - c.y)) * (t * t) by ring]
  rw [Real.sqrt_mul (by nlinarith [mul_self_nonneg (p.x - c.x), mul_self_nonneg (p.y - c.y)]),
    Real.sqrt_mul_self ht]

/-- Expanding a point at non-zero distance increases its distance to
the centroid by exactly the padding. -/
theorem expandPoint_dist (c p : RPoint) (padding : ℝ) (hpad : 0 < padding)
    (h : GeometryUtils.ptDist p c ≠ 0) :
    GeometryUtils.ptDist (HullPadding.expandPoint c padding p) c =
      GeometryUtils.ptDist p c + padding := by
  have hD : 0 < GeometryUtils.ptDist p c := lt_of_le_of_ne (ptDist_nonneg p c) (Ne.symm h)
  have ht : 0 ≤ (GeometryUtils.ptDist p c + padding) / GeometryUtils.ptDist p c := by positivity
  rw [expandPoint_of_dist_ne_zero c padding p h, ptDist_scale c p _ ht]
  field_simp

/-- For positive padding, addPadding maps each point through
expandPoint around the input centroid. -/
theorem addPadding_getD (points : List RPoint) (padding : ℝ) (hpad : 0 < padding)
    (i : ℕ) (hi : i < points.length) :
    (HullPadding.addPadding points padding).getD i ⟨0, 0⟩ =
      HullPadding.expandPoint (GeometryUtils.calculateCentroid points) padding
        (points.getD i ⟨0, 0⟩) := by
  unfold HullPadding.addPadding
  rw [if_neg (by linarith)]
  rw [List.getD_eq_getElem _ _ (by simpa using hi), List.getD_eq_getElem _ _ hi,
    List.getElem_map]

/-- For positive padding, addPadding preserves the number of points. -/
theorem addPadding_length (points : List RPoint) (padding : ℝ) (hpad : 0 < padding) :
    (HullPadding.addPadding points padding).length = points.length := by
  unfold HullPadding.addPadding
  rw [if_neg (by linarith), List.length_map]

/-- C6: hull padding with `d ≤ 0` returns the input unchanged; with
`d > 0` it preserves the point count, leaves points at centroid
distance zero unchanged, and moves every other point outward along the
centroid-to-point ray (offset scaled by a factor greater than 1) so
that its centroid distance grows by exactly `d`. -/
theorem C6_addPadding_behaviour (points : List RPoint) (d : ℝ) :
    (d ≤ 0 → HullPadding.addPadding points d = points) ∧
    (0 < d →
      (HullPadding.addPadding points d).length = points.length ∧
      ∀ i, i < points.length →
        (GeometryUtils.ptDist (points.getD i ⟨0, 0⟩)
            (GeometryUtils.calculateCentroid points) = 0 →
          (HullPadding.addPadding points d).getD i ⟨0, 0⟩ = points.getD i ⟨0, 0⟩) ∧
        (GeometryUtils.ptDist (points.getD i ⟨0, 0⟩)
            (GeometryUtils.calculateCentroid points) ≠ 0 →
          (∃ t : ℝ, 1 < t ∧
            ((HullPadding.addPadding points d).getD i ⟨0, 0⟩).x -
                (GeometryUtils.calculateCentroid points).x =
              t * ((points.getD i ⟨0, 0⟩).x - (GeometryUtils.calculateCentroid points).x) ∧
            ((HullPadding.addPadding points d).getD i ⟨0, 0⟩).y -
                (GeometryUtils.calculateCentroid points).y =
              t * ((points.getD i ⟨0, 0⟩).y - (GeometryUtils.calculateCentroid points).y)) ∧
          GeometryUtils.ptDist ((HullPadding.addPadding points d).getD i ⟨0, 0⟩)
              (GeometryUtils.calculateCentroid points) =
            GeometryUtils.ptDist (points.getD i ⟨0, 0⟩)
              (GeometryUtils.calculateCentroid points) + d)) := by
  constructor
  · intro hd
    unfold HullPadding.addPadding
    exact if_pos hd
  · intro hd
    refine ⟨addPadding_length points d hd, fun i hi => ?_⟩
    set c := GeometryUtils.calculateCentroid points with hc
    set p := points.getD i ⟨0, 0⟩ with hp
    constructor
    · intro h0
      rw [addPadding_getD points d hd i hi, ← hp, expandPoint_of_dist_zero _ _ _ h0]
    · intro hne
      have hD : 0 < GeometryUtils.ptDist p c :=
        lt_of_le_of_ne (ptDist_nonneg p c) (Ne.symm hne)
      refine ⟨⟨(GeometryUtils.ptDist p c + d) / GeometryUtils.ptDist p c,
        ?_, ?_, ?_⟩, ?_⟩
      · rw [lt_div_iff₀ hD]; linarith
      · rw [addPadding_getD points d hd i hi, ← hp, ← hc,
          expandPoint_of_dist_ne_zero c d p hne]
        ring
      · rw [addPadding_getD points d hd i hi, ← hp, ← hc,
          expandPoint_of_dist_ne_zero c d p hne]
        ring
      · rw [addPadding_getD points d hd i hi, ← hp, ← hc,
          expandPoint_dist c p d hd hne]

/-- Concrete instance discharging the hypotheses of
C6_addPadding_behaviour: the two-point boundary {(1,0), (-1,0)} padded
by 1 grows each centroid distance from 1 to 2. -/
theorem C6_witness :
    GeometryUtils.ptDist ((HullPadding.addPadding [⟨1, 0⟩, ⟨-1, 0⟩] 1).getD 0 ⟨0, 0⟩)
        (GeometryUtils.calculateCentroid [⟨1, 0⟩, ⟨-1, 0⟩]) =
      GeometryUtils.ptDist (([⟨1, 0⟩, ⟨-1, 0⟩] : List RPoint).getD 0 ⟨0, 0⟩)
        (GeometryUtils.calculateCentroid [⟨1, 0⟩, ⟨-1, 0⟩]) + 1 := by
  have hd : (0 : ℝ) < 1 := one_pos
  have hi : 0 < ([⟨1, 0⟩, ⟨-1, 0⟩] : List RPoint).length := by norm_num
  have hcent : GeometryUtils.calculateCentroid [⟨1, 0⟩, ⟨-1, 0⟩] = ⟨0, 0⟩ := by
    unfold GeometryUtils.calculateCentroid
    norm_num
  have hne : GeometryUtils.ptDist (([⟨1, 0⟩, ⟨-1, 0⟩] : List RPoint).getD 0 ⟨0, 0⟩)
      (GeometryUtils.calculateCentroid [⟨1, 0⟩, ⟨-1, 0⟩]) ≠ 0 := by
    rw [hcent]
    show Real.sqrt ((1 - 0) * (1 - 0) + (0 - 0) * (0 - 0)) ≠ 0
    rw [show ((1:ℝ) - 0) * (1 - 0) + (0 - 0) * (0 - 0) = 1 * 1 by norm_num,
      Real.sqrt_mul_self (by norm_num)]
    norm_num
  exact (((C6_addPadding_behaviour [⟨1, 0⟩, ⟨-1, 0⟩] 1).2 hd).2 0 hi).2 hne |>.2

/-- Evaluation helper: the distance to the centroid equals `D` when
the sum of coordinate squares is `D · D` with `D ≥ 0`. -/
theorem ptDist_eval (p c : RPoint) (D : ℝ) (hD : 0 ≤ D)
    (h : (p.x - c.x) * (p.x - c.x) + (p.y - c.y) * (p.y - c.y) = D * D) :
    GeometryUtils.ptDist p c = D := by
  unfold GeometryUtils.ptDist
  rw [h, Real.sqrt_mul_self hD]

/-- C2 (amended): double application of hull padding with positive
distances d1 then d2 grows the distance of every point (at non-zero
centroid distance) to the original centroid by exactly d1 + d2
whenever the first expansion leaves the centroid unchanged. -/
theorem C2_addPadding_twice (points : List RPoint) (d1 d2 : ℝ)
    (h1 : 0 < d1) (h2 : 0 < d2)
    (hc : GeometryUtils.calculateCentroid (HullPadding.addPadding points d1) =
      GeometryUtils.calculateCentroid points) :
    ∀ i, i < points.length →
      GeometryUtils.ptDist (points.getD i ⟨0, 0⟩)
        (GeometryUtils.calculateCentroid points) ≠ 0 →
      GeometryUtils.ptDist
          ((HullPadding.addPadding (HullPadding.addPadding points d1) d2).getD i ⟨0, 0⟩)
          (GeometryUtils.calculateCentroid points) =
        GeometryUtils.ptDist (points.getD i ⟨0, 0⟩)
          (GeometryUtils.calculateCentroid points) + (d1 + d2) := by
  intro i hi hne
  set c := GeometryUtils.calculateCentroid points with hcdef
  set p := points.getD i ⟨0, 0⟩ with hpdef
  have hi1 : i < (HullPadding.addPadding points d1).length := by
    rw [addPadding_length points d1 h1]; exact hi
  have hmid : (HullPadding.addPadding points d1).getD i ⟨0, 0⟩ =
      HullPadding.expandPoint c d1 p := addPadding_getD points d1 h1 i hi
  have hmidd : GeometryUtils.ptDist (HullPadding.expandPoint c d1 p) c =
      GeometryUtils.ptDist p c + d1 := expandPoint_dist c p d1 h1 hne
  have hmidne : GeometryUtils.ptDist (HullPadding.expandPoint c d1 p) c ≠ 0 := by
    rw [hmidd]
    have := ptDist_nonneg p c
    intro habs; linarith
  rw [addPadding_getD _ d2 h2 i hi1, hc, hmid,
    expandPoint_dist c _ d2 h2 hmidne, hmidd]
  ring

/-- Concrete instance discharging the hypotheses of
C2_addPadding_twice: the symmetric boundary {(1,0), (-1,0)} keeps its
centroid (0,0) under padding, and the first point's centroid distance
grows from 1 to 3 after padding by 1 twice. -/
theorem C2_witness :
    GeometryUtils.ptDist
        ((HullPadding.addPadding (HullPadding.addPadding [⟨1, 0⟩, ⟨-1, 0⟩] 1) 1).getD 0 ⟨0, 0⟩)
        (GeometryUtils.calculateCentroid [⟨1, 0⟩, ⟨-1, 0⟩]) =
      GeometryUtils.ptDist (([⟨1, 0⟩, ⟨-1, 0⟩] : List RPoint).getD 0 ⟨0, 0⟩)
        (GeometryUtils.calculateCentroid [⟨1, 0⟩, ⟨-1, 0⟩]) + (1 + 1) := by
  have hcent : GeometryUtils.calculateCentroid [⟨1, 0⟩, ⟨-1, 0⟩] = ⟨0, 0⟩ := by
    unfold GeometryUtils.calculateCentroid; norm_num
  have hda : GeometryUtils.ptDist ⟨1, 0⟩ ⟨0, 0⟩ = 1 :=
    ptDist_eval _ _ 1 (by norm_num) (by norm_num)
  have hdb : GeometryUtils.ptDist ⟨-1, 0⟩ ⟨0, 0⟩ = 1 :=
    ptDist_eval _ _ 1 (by norm_num) (by norm_num)
  have ea : HullPadding.expandPoint ⟨0, 0⟩ 1 ⟨1, 0⟩ = ⟨2, 0⟩ := by
    rw [expandPoint_of_dist_ne_zero _ _ _ (by rw [hda]; norm_num), hda]
    show RPoint.mk _ _ = _
    norm_num
  have eb : HullPadding.expandPoint ⟨0, 0⟩ 1 ⟨-1, 0⟩ = ⟨-2, 0⟩ := by
    rw [expandPoint_of_dist_ne_zero _ _ _ (by rw [hdb]; norm_num), hdb]
    show RPoint.mk _ _ = _
    norm_num
  have e1 : HullPadding.addPadding [⟨1, 0⟩, ⟨-1, 0⟩] 1 = [⟨2, 0⟩, ⟨-2, 0⟩] := by
    unfold HullPadding.addPadding
    rw [if_neg (by norm_num), hcent]
    simp [ea, eb]
  have hc : GeometryUtils.calculateCentroid (HullPadding.addPadding [⟨1, 0⟩, ⟨-1, 0⟩] 1) =
      GeometryUtils.calculateCentroid [⟨1, 0⟩, ⟨-1, 0⟩] := by
    rw [e1, hcent]
    unfold GeometryUtils.calculateCentroid; norm_num
  have hne : GeometryUtils.ptDist (([⟨1, 0⟩, ⟨-1, 0⟩] : List RPoint).getD 0 ⟨0, 0⟩)
      (GeometryUtils.calculateCentroid [⟨1, 0⟩, ⟨-1, 0⟩]) ≠ 0 := by
    rw [hcent]
    show GeometryUtils.ptDist ⟨1, 0⟩ ⟨0, 0⟩ ≠ 0
    rw [hda]; norm_num
  exact C2_addPadding_twice [⟨1, 0⟩, ⟨-1, 0⟩] 1 1 one_pos one_pos hc 0 (by norm_num) hne

/-- C2 counterexample: for the boundary {(3,4), (-3,0), (0,-4)} (centroid
(0,0), point distances 5, 3, 4) padded by d1 = 10 and then by
d2 = √2405 / 3 > 0, the first point ends at distance √8840 / 3 ≈ 31.340
from the original centroid, not at 5 + d1 + d2 ≈ 31.347: the first
expansion moves the centroid to (-4/3, -2/3), so the second expansion
pushes along rays from the shifted centroid. -/
theorem C2_counterexample :
    (0 : ℝ) < 10 ∧ 0 < Real.sqrt 2405 / 3 ∧
    ¬ (GeometryUtils.ptDist
          ((HullPadding.addPadding (HullPadding.addPadding [⟨3, 4⟩, ⟨-3, 0⟩, ⟨0, -4⟩] 10)
              (Real.sqrt 2405 / 3)).getD 0 ⟨0, 0⟩)
          (GeometryUtils.calculateCentroid [⟨3, 4⟩, ⟨-3, 0⟩, ⟨0, -4⟩]) =
        GeometryUtils.ptDist (([⟨3, 4⟩, ⟨-3, 0⟩, ⟨0, -4⟩] : List RPoint).getD 0 ⟨0, 0⟩)
          (GeometryUtils.calculateCentroid [⟨3, 4⟩, ⟨-3, 0⟩, ⟨0, -4⟩]) +
        (10 + Real.sqrt 2405 / 3)) := by
  have h24nn : (0 : ℝ) ≤ 2405 := by norm_num
  have h24 : Real.sqrt 2405 * Real.sqrt 2405 = 2405 := Real.mul_self_sqrt h24nn
  have hs24pos : 0 < Real.sqrt 2405 := Real.sqrt_pos.mpr (by norm_num)
  have hd2pos : (0 : ℝ) < Real.sqrt 2405 / 3 := by positivity
  refine ⟨by norm_num, hd2pos, ?_⟩
  have hcent : GeometryUtils.calculateCentroid [⟨3, 4⟩, ⟨-3, 0⟩, ⟨0, -4⟩] = ⟨0, 0⟩ := by
    unfold GeometryUtils.calculateCentroid; norm_num
  have hd0 : GeometryUtils.ptDist ⟨3, 4⟩ ⟨0, 0⟩ = 5 :=
    ptDist_eval _ _ 5 (by norm_num) (by norm_num)
  have hd1 : GeometryUtils.ptDist ⟨-3, 0⟩ ⟨0, 0⟩ = 3 :=
    ptDist_eval _ _ 3 (by norm_num) (by norm_num)
  have hd2 : GeometryUtils.ptDist ⟨0, -4⟩ ⟨0, 0⟩ = 4 :=
    ptDist_eval _ _ 4 (by norm_num) (by norm_num)
  have ea : HullPadding.expandPoint ⟨0, 0⟩ 10 ⟨3, 4⟩ = ⟨9, 12⟩ := by
    rw [expandPoint_of_dist_ne_zero _ _ _ (by rw [hd0]; norm_num), hd0]
    show RPoint.mk _ _ = _
    norm_num
  have eb : HullPadding.expandPoint ⟨0, 0⟩ 10 ⟨-3, 0⟩ = ⟨-13, 0⟩ := by
    rw [expandPoint_of_dist_ne_zero _ _ _ (by rw [hd1]; norm_num), hd1]
    show RPoint.mk _ _ = _
    norm_num
  have ec : HullPadding.expandPoint ⟨0, 0⟩ 10 ⟨0, -4⟩ = ⟨0, -14⟩ := by
    rw [expandPoint_of_dist_ne_zero _ _ _ (by rw [hd2]; norm_num), hd2]
    show RPoint.mk _ _ = _
    norm_num
  have e1 : HullPadding.addPadding [⟨3, 4⟩, ⟨-3, 0⟩, ⟨0, -4⟩] 10 =
      [⟨9, 12⟩, ⟨-13, 0⟩, ⟨0, -14⟩] := by
    unfold HullPadding.addPadding
    rw [if_neg (by norm_num), hcent]
    simp [ea, eb, ec]
  have hcmid : GeometryUtils.calculateCentroid [⟨9, 12⟩, ⟨-13, 0⟩, ⟨0, -14⟩] =
      ⟨-4/3, -2/3⟩ := by
    unfold GeometryUtils.calculateCentroid
    norm_num
  have hmidd : GeometryUtils.ptDist ⟨9, 12⟩ ⟨-4/3, -2/3⟩ = Real.sqrt 2405 / 3 := by
    refine ptDist_eval _ _ _ (le_of_lt hd2pos) ?_
    rw [div_mul_div_comm, h24]
    norm_num
  have e2 : (HullPadding.addPadding [⟨9, 12⟩, ⟨-13, 0⟩, ⟨0, -14⟩]
      (Real.sqrt 2405 / 3)).getD 0 ⟨0, 0⟩ = ⟨58/3, 74/3⟩ := by
    rw [addPadding_getD _ _ hd2pos 0 (by norm_num), hcmid]
    show HullPadding.expandPoint _ _ ⟨9, 12⟩ = _
    rw [expandPoint_of_dist_ne_zero _ _ _ (by rw [hmidd]; positivity), hmidd]
    have hscale : (Real.sqrt 2405 / 3 + Real.sqrt 2405 / 3) / (Real.sqrt 2405 / 3) = 2 := by
      field_simp
      ring
    rw [hscale]
    show RPoint.mk _ _ = _
    norm_num
  have h88nn : (0 : ℝ) ≤ 8840 := by norm_num
  have h88 : Real.sqrt 8840 * Real.sqrt 8840 = 8840 := Real.mul_self_sqrt h88nn
  have hfinal : GeometryUtils.ptDist ⟨58/3, 74/3⟩ ⟨0, 0⟩ = Real.sqrt 8840 / 3 := by
    refine ptDist_eval _ _ _ (by positivity) ?_
    rw [div_mul_div_comm, h88]
    norm_num
  rw [e1, e2, hcent, hfinal]
  show ¬ (Real.sqrt 8840 / 3 = GeometryUtils.ptDist ⟨3, 4⟩ ⟨0, 0⟩ + (10 + Real.sqrt 2405 / 3))
  rw [hd0]
  intro heq
  have lin : Real.sqrt 8840 = 45 + Real.sqrt 2405 := by linarith
  have esq : Real.sqrt 8840 * Real.sqrt 8840 =
      (45 + Real.sqrt 2405) * (45 + Real.sqrt 2405) := by rw [lin]
  have expand : (8840 : ℝ) = 2025 + 90 * Real.sqrt 2405 + 2405 := by
    have e3 : (45 + Real.sqrt 2405) * (45 + Real.sqrt 2405) =
        2025 + 90 * Real.sqrt 2405 + Real.sqrt 2405 * Real.sqrt 2405 := by ring
    rw [e3, h24] at esq
    rw [← h88, esq]
  have hval : Real.sqrt 2405 = 49 := by linarith
  rw [hval] at h24
  norm_num at h24

/-! ## Label placement: the fold computes the first minimum -/

/-- The selection fold started at the head's own score lands on the
first index of minimal score: no other candidate scores lower, and all
earlier candidates score strictly higher. -/
theorem foldl_selectStep_argmin (score : Point → ℝ) (l : List Point) (p₀ : Point) :
    ∃ i : ℕ, ∃ hi : i < (p₀ :: l).length,
      (l.foldl (TextCollisionDetector.selectStep score) (p₀, score p₀)).1 =
        (p₀ :: l).get ⟨i, hi⟩ ∧
      (∀ j (hj : j < (p₀ :: l).length),
        score ((p₀ :: l).get ⟨i, hi⟩) ≤ score ((p₀ :: l).get ⟨j, hj⟩)) ∧
      (∀ j (hj : j < (p₀ :: l).length), j < i →
        score ((p₀ :: l).get ⟨i, hi⟩) < score ((p₀ :: l).get ⟨j, hj⟩)) := by
  induction l generalizing p₀ with
  | nil =>
    refine ⟨0, by norm_num, rfl, ?_, ?_⟩
    · intro j hj
      have hj0 : j = 0 := by simpa using hj
      subst hj0
      exact le_refl _
    · intro j hj hji
      omega
  | cons c t ih =>
    rw [List.foldl_cons]
    by_cases h : score c < score p₀
    · have hstep : TextCollisionDetector.selectStep score (p₀, score p₀) c = (c, score c) := by
        unfold TextCollisionDetector.selectStep
        rw [if_pos h]
      rw [hstep]
      obtain ⟨i', hi', heq, hmin, hstrict⟩ := ih c
      refine ⟨i' + 1, by simpa using hi', heq, ?_, ?_⟩
      · intro j hj
        match j with
        | 0 => exact le_trans (hmin 0 (by norm_num)) (le_of_lt h)
        | j'' + 1 => exact hmin j'' (by simpa using hj)
      · intro j hj hji
        match j with
        | 0 => exact lt_of_le_of_lt (hmin 0 (by norm_num)) h
        | j'' + 1 => exact hstrict j'' (by simpa using hj) (by omega)
    · have hstep : TextCollisionDetector.selectStep score (p₀, score p₀) c = (p₀, score p₀) := by
        unfold TextCollisionDetector.selectStep
        rw [if_neg h]
      rw [hstep]
      obtain ⟨i', hi', heq, hmin, hstrict⟩ := ih p₀
      have hle : score p₀ ≤ score c := not_lt.mp h
      match i', hi' with
      | 0, hi' =>
        refine ⟨0, by norm_num, heq, ?_, ?_⟩
        · intro j hj
          match j with
          | 0 => exact hmin 0 (by norm_num)
          | 1 => exact le_trans (hmin 0 (by norm_num)) hle
          | j'' + 2 =>
            exact le_trans
              (le_of_eq (congrArg score (by simp)))
              (hmin (j'' + 1) (by simpa using hj))
        · intro j hj hji
          omega
      | i'' + 1, hi' =>
        refine ⟨i'' + 2, by simpa using hi', by simpa using heq, ?_, ?_⟩
        · intro j hj
          have htarget : ((p₀ :: c :: t).get ⟨i'' + 2, by simpa using hi'⟩) =
              ((p₀ :: t).get ⟨i'' + 1, hi'⟩) := by simp
          rw [htarget]
          match j with
          | 0 => exact hmin 0 (by norm_num)
          | 1 => exact le_trans (hmin 0 (by norm_num)) hle
          | j'' + 2 => exact hmin (j'' + 1) (by simpa using hj)
        · intro j hj hji
          have htarget : ((p₀ :: c :: t).get ⟨i'' + 2, by simpa using hi'⟩) =
              ((p₀ :: t).get ⟨i'' + 1, hi'⟩) := by simp
          rw [htarget]
          match j with
          | 0 => exact hstrict 0 (by norm_num) (by omega)
          | 1 => exact lt_of_lt_of_le (hstrict 0 (by norm_num) (by omega)) hle
          | j'' + 2 => exact hstrict (j'' + 1) (by simpa using hj) (by omega)

/-- C1: the label placer returns the candidate of minimal score
(score = distance-to-preferred·3 + obstacle collisions·50 +
placed-label collisions·300 + accumulated overlap area·0.05), with
ties broken by generation order: no candidate scores lower than the
returned one, and every earlier candidate (in particular the preferred
anchor and closer rings, which come first) scores strictly higher. -/
theorem C1_findNearest_selects_first_min (st : TextCollisionDetector.DetectorState)
    (text : String) (fontSize : ℚ) (fontFamily : String) (preferredPosition : Point) :
    ∃ i : ℕ, ∃ hi : i <
        (TextCollisionDetector.generateCandidatePositions preferredPosition).length,
      (TextCollisionDetector.findNearestNonCollidingPosition st text fontSize fontFamily
          preferredPosition).1 =
        (TextCollisionDetector.generateCandidatePositions preferredPosition).get ⟨i, hi⟩ ∧
      (∀ j (hj : j <
          (TextCollisionDetector.generateCandidatePositions preferredPosition).length),
        TextCollisionDetector.calculatePositionScore st text fontSize fontFamily
          ((TextCollisionDetector.generateCandidatePositions preferredPosition).get ⟨i, hi⟩)
          preferredPosition ≤
        TextCollisionDetector.calculatePositionScore st text fontSize fontFamily
          ((TextCollisionDetector.generateCandidatePositions preferredPosition).get ⟨j, hj⟩)
          preferredPosition) ∧
      (∀ j (hj : j <
          (TextCollisionDetector.generateCandidatePositions preferredPosition).length),
        j < i →
        TextCollisionDetector.calculatePositionScore st text fontSize fontFamily
          ((TextCollisionDetector.generateCandidatePositions preferredPosition).get ⟨i, hi⟩)
          preferredPosition <
        TextCollisionDetector.calculatePositionScore st text fontSize fontFamily
          ((TextCollisionDetector.generateCandidatePositions preferredPosition).get ⟨j, hj⟩)
          preferredPosition) := by
  have hfold : (TextCollisionDetector.findNearestNonCollidingPosition st text fontSize
      fontFamily preferredPosition).1 =
      ((TextCollisionDetector.generateCandidatePositions preferredPosition).foldl
        (TextCollisionDetector.selectStep (fun candidate =>
          TextCollisionDetector.calculatePositionScore st text fontSize fontFamily
            candidate preferredPosition))
        (preferredPosition,
          TextCollisionDetector.calculatePositionScore st text fontSize fontFamily
            preferredPosition preferredPosition)).1 := rfl
  have hsimp : ((TextCollisionDetector.generateCandidatePositions preferredPosition).foldl
      (TextCollisionDetector.selectStep (fun candidate =>
        TextCollisionDetector.calculatePositionScore st text fontSize fontFamily
          candidate preferredPosition))
      (preferredPosition,
        TextCollisionDetector.calculatePositionScore st text fontSize fontFamily
          preferredPosition preferredPosition)) =
      ((TextCollisionDetector.ringDistances.flatMap (fun distance =>
        TextCollisionDetector.directions.map (fun dir =>
          ⟨preferredPosition.x + dir.x * distance,
           preferredPosition.y + dir.y * distance⟩))).foldl
        (TextCollisionDetector.selectStep (fun candidate =>
          TextCollisionDetector.calculatePositionScore st text fontSize fontFamily
            candidate preferredPosition))
        (preferredPosition,
          TextCollisionDetector.calculatePositionScore st text fontSize fontFamily
            preferredPosition preferredPosition)) := by
    show (List.foldl _ _ (preferredPosition ::
      TextCollisionDetector.ringDistances.flatMap _)) = _
    rw [List.foldl_cons]
    congr 1
    unfold TextCollisionDetector.selectStep
    rw [if_neg (lt_irrefl _)]
  obtain ⟨i, hi, h1, h2, h3⟩ := foldl_selectStep_argmin
    (fun candidate => TextCollisionDetector.calculatePositionScore st text fontSize
      fontFamily candidate preferredPosition)
    (TextCollisionDetector.ringDistances.flatMap (fun distance =>
      TextCollisionDetector.directions.map (fun dir =>
        ⟨preferredPosition.x + dir.x * distance,
         preferredPosition.y + dir.y * distance⟩)))
    preferredPosition
  exact ⟨i, hi, by rw [hfold, hsimp]; exact h1, h2, h3⟩

/-! ## Convex hull: deduplication, anchor and sort facts -/

/-- The deduplication fold only ever emits input points. -/
theorem foldl_dedup_subset (tolStep : List Point → Point → List Point)
    (hstep : ∀ acc point, tolStep acc point = acc ∨ tolStep acc point = acc ++ [point]) :
    ∀ (l acc : List Point), ∀ p ∈ l.foldl tolStep acc, p ∈ acc ∨ p ∈ l := by
  intro l
  induction l with
  | nil => intro acc p hp; exact Or.inl hp
  | cons a t ih =>
    intro acc p hp
    rw [List.foldl_cons] at hp
    rcases ih (tolStep acc a) p hp with h | h
    · rcases hstep acc a with he | he
      · rw [he] at h; exact Or.inl h
      · rw [he] at h
        rcases List.mem_append.mp h with h' | h'
        · exact Or.inl h'
        · simp only [List.mem_singleton] at h'
          exact Or.inr (h' ▸ List.mem_cons_self a t)
    · exact Or.inr (List.mem_cons_of_mem a h)

/-- Points surviving deduplication come from the input list. -/
theorem removeDuplicatePoints_subset (points : List Point) :
    ∀ p ∈ HullCalculator.removeDuplicatePoints points, p ∈ points := by
  intro p hp
  unfold HullCalculator.removeDuplicatePoints at hp
  have := foldl_dedup_subset _ (fun acc point => by
    by_cases h : acc.any (fun existing =>
        decide (|existing.x - point.x| < 1 / 1000) &&
        decide (|existing.y - point.y| < 1 / 1000)) = true
    · exact Or.inl (by rw [if_pos h])
    · exact Or.inr (by rw [if_neg h])) points [] p hp
  rcases this with h | h
  · exact absurd h (List.not_mem_nil p)
  · exact h

/-- The anchor relation is transitive. -/
theorem belowLeftLE_trans {a b c : Point} (h1 : HullCalculator.belowLeftLE a b)
    (h2 : HullCalculator.belowLeftLE b c) : HullCalculator.belowLeftLE a c := by
  unfold HullCalculator.belowLeftLE at h1 h2 ⊢
  rcases h1 with h1 | ⟨h1, h1x⟩ <;> rcases h2 with h2 | ⟨h2, h2x⟩
  · exact Or.inl (lt_trans h1 h2)
  · exact Or.inl (h2 ▸ h1)
  · exact Or.inl (h1 ▸ h2)
  · exact Or.inr ⟨h1.trans h2, le_trans h1x h2x⟩

/-- The selection step of findStart keeps a lexicographic lower bound. -/
theorem findStart_foldl_min (l : List Point) :
    ∀ acc : Point,
      (l.foldl (fun start point =>
        if point.y < start.y ∨ (point.y = start.y ∧ point.x < start.x) then point
        else start) acc = acc ∨
       l.foldl (fun start point =>
        if point.y < start.y ∨ (point.y = start.y ∧ point.x < start.x) then point
        else start) acc ∈ l) ∧
      HullCalculator.belowLeftLE
        (l.foldl (fun start point =>
          if point.y < start.y ∨ (point.y = start.y ∧ point.x < start.x) then point
          else start) acc) acc ∧
      (∀ p ∈ l, HullCalculator.belowLeftLE
        (l.foldl (fun start point =>
          if point.y < start.y ∨ (point.y = start.y ∧ point.x < start.x) then point
          else start) acc) p) := by
  induction l with
  | nil =>
    intro acc
    refine ⟨Or.inl rfl, Or.inr ⟨rfl, le_refl _⟩, fun p hp => absurd hp (List.not_mem_nil p)⟩
  | cons a t ih =>
    intro acc
    rw [List.foldl_cons]
    by_cases h : a.y < acc.y ∨ (a.y = acc.y ∧ a.x < acc.x)
    · rw [if_pos h]
      obtain ⟨hmem, hacc, hall⟩ := ih a
      have haLEacc : HullCalculator.belowLeftLE a acc := by
        unfold HullCalculator.belowLeftLE
        rcases h with h | ⟨hy, hx⟩
        · exact Or.inl h
        · exact Or.inr ⟨hy, le_of_lt hx⟩
      refine ⟨?_, belowLeftLE_trans hacc haLEacc, fun p hp => ?_⟩
      · rcases hmem with h' | h'
        · exact Or.inr (by rw [h']; exact List.mem_cons_self a t)
        · exact Or.inr (List.mem_cons_of_mem a h')
      · rcases List.mem_cons.mp hp with rfl | hp'
        · exact hacc
        · exact hall p hp'
    · rw [if_neg h]
      obtain ⟨hmem, hacc, hall⟩ := ih acc
      have haccLEa : HullCalculator.belowLeftLE acc a := by
        unfold HullCalculator.belowLeftLE
        push_neg at h
        rcases eq_or_lt_of_le h.1 with hy | hy
        · exact Or.inr ⟨hy, h.2 hy.symm⟩
        · exact Or.inl hy
      refine ⟨?_, hacc, fun p hp => ?_⟩
      · rcases hmem with h' | h'
        · exact Or.inl h'
        · exact Or.inr (List.mem_cons_of_mem a h')
      · rcases List.mem_cons.mp hp with rfl | hp'
        · exact belowLeftLE_trans hacc haccLEa
        · exact hall p hp'

/-- The anchor belongs to the (non-empty) point list. -/
theorem findStart_mem (points : List Point) (h : points ≠ []) :
    HullCalculator.findStart points ∈ points := by
  unfold HullCalculator.findStart
  rcases (findStart_foldl_min points (points.headD ⟨0, 0⟩)).1 with h' | h'
  · rw [h']
    match points, h with
    | p :: t, _ => exact List.mem_cons_self p t
  · exact h'

/-- The anchor is a lexicographic minimum of the point list. -/
theorem findStart_min (points : List Point) :
    ∀ p ∈ points, HullCalculator.belowLeftLE (HullCalculator.findStart points) p :=
  (findStart_foldl_min points (points.headD ⟨0, 0⟩)).2.2

/-- Every unique point other than the anchor lies in the anchor's
upper half-plane. -/
theorem aboveStart_of_min (s p : Point) (hmin : HullCalculator.belowLeftLE s p)
    (hne : p ≠ s) : HullCalculator.aboveStart s p := by
  unfold HullCalculator.belowLeftLE at hmin
  unfold HullCalculator.aboveStart
  rcases hmin with h | ⟨hy, hx⟩
  · exact Or.inl h
  · refine Or.inr ⟨hy, lt_of_le_of_ne hx ?_⟩
    intro hxx
    exact hne (Point.ext hxx.symm hy.symm)

/-! ## Convex hull: scan stack facts -/

/-- Popping only removes from the top: the result is a suffix. -/
theorem popWhile_suffix (q : Point) : ∀ l : List Point,
    HullCalculator.popWhile q l <:+ l := by
  intro l
  induction l with
  | nil => exact List.suffix_refl _
  | cons t rest ih =>
    match rest, ih with
    | [], _ => exact List.suffix_refl _
    | s :: rest', ih =>
      show HullCalculator.popWhile q (t :: s :: rest') <:+ _
      unfold HullCalculator.popWhile
      by_cases h : HullCalculator.crossProduct s t q ≤ 0
      · rw [if_pos h]
        exact ih.trans (List.suffix_cons t _)
      · rw [if_neg h]

/-- Popping never empties a non-empty stack. -/
theorem popWhile_ne_nil (q : Point) : ∀ l : List Point, l ≠ [] →
    HullCalculator.popWhile q l ≠ [] := by
  intro l
  induction l with
  | nil => exact fun h => absurd rfl h
  | cons t rest ih =>
    intro _
    match rest, ih with
    | [], _ => exact (by simp [HullCalculator.popWhile] : (HullCalculator.popWhile q [t]) ≠ [])
    | s :: rest', ih =>
      show HullCalculator.popWhile q (t :: s :: rest') ≠ []
      unfold HullCalculator.popWhile
      by_cases h : HullCalculator.crossProduct s t q ≤ 0
      · rw [if_pos h]
        exact ih (by simp)
      · rw [if_neg h]
        simp

/-- When the popped stack still has two entries, the candidate makes a
strict left turn with them (the loop exit condition). -/
theorem popWhile_post (q : Point) : ∀ (l : List Point) (t' s' : Point)
    (rest' : List Point), HullCalculator.popWhile q l = t' :: s' :: rest' →
    0 < HullCalculator.crossProduct s' t' q := by
  intro l
  induction l with
  | nil => intro t' s' rest' h; simp [HullCalculator.popWhile] at h
  | cons t rest ih =>
    intro t' s' rest' h
    match rest with
    | [] => simp [HullCalculator.popWhile] at h
    | s :: rest2 =>
      rw [show HullCalculator.popWhile q (t :: s :: rest2) =
          if HullCalculator.crossProduct s t q ≤ 0 then
            HullCalculator.popWhile q (s :: rest2) else t :: s :: rest2
        from rfl] at h
      by_cases hc : HullCalculator.crossProduct s t q ≤ 0
      · rw [if_pos hc] at h
        exact ih _ _ _ h
      · rw [if_neg hc] at h
        obtain ⟨rfl, rfl, rfl⟩ : t = t' ∧ s = s' ∧ rest2 = rest' := by
          simpa using h
        exact lt_of_not_le hc

/-- A stack with convex triples keeps convex triples after dropping the top. -/
theorem StackCCW_tail : ∀ l : List Point, HullCalculator.StackCCW l →
    HullCalculator.StackCCW l.tail := by
  intro l h
  match l with
  | [] => trivial
  | [a] => trivial
  | [a, b] => trivial
  | a :: b :: c :: rest => exact h.2

/-- A suffix of a stack with convex triples has convex triples. -/
theorem StackCCW_suffix : ∀ l l' : List Point, l' <:+ l →
    HullCalculator.StackCCW l → HullCalculator.StackCCW l' := by
  intro l
  induction l with
  | nil =>
    intro l' hsuf h
    rw [List.suffix_nil.mp hsuf]
    trivial
  | cons a t ih =>
    intro l' hsuf h
    rcases List.suffix_cons_iff.mp hsuf with rfl | hsuf'
    · exact h
    · exact ih l' hsuf' (StackCCW_tail _ h)

/-- Index formulation of the stack convexity invariant: the stack is
top-first, so hull-order triples read backwards. -/
theorem StackCCW_getElem : ∀ l : List Point, HullCalculator.StackCCW l →
    ∀ i : ℕ, (h : i + 2 < l.length) →
      0 < HullCalculator.crossProduct
        (l.get ⟨i + 2, h⟩) (l.get ⟨i + 1, by omega⟩) (l.get ⟨i, by omega⟩) := by
  intro l
  induction l with
  | nil => intro h i hi; simp at hi
  | cons a t ih =>
    intro h i hi
    match t, h, hi with
    | b :: c :: rest, h, hi =>
      match i with
      | 0 => exact h.1
      | i' + 1 =>
        have := ih h.2 i' (by simpa using hi)
        simpa using this

/-! ## Convex hull: the polar-angle sort is cross-product monotone -/

/-- For two points in the anchor's upper half-plane, sorting by polar
angle (Math.atan2 order) implies a non-negative cross product: the
cross product of the two anchor-relative vectors is
`r₁·r₂·sin(θ₂ - θ₁)` with `θ₂ - θ₁ ∈ [0, π]`. -/
theorem angle_mono_cross (s p q : Point)
    (hp : HullCalculator.aboveStart s p) (hq : HullCalculator.aboveStart s q)
    (h : HullCalculator.angle s p ≤ HullCalculator.angle s q) :
    0 ≤ HullCalculator.crossProduct s p q := by
  set z1 : ℂ := ⟨((p.x - s.x : ℚ) : ℝ), ((p.y - s.y : ℚ) : ℝ)⟩ with hz1def
  set z2 : ℂ := ⟨((q.x - s.x : ℚ) : ℝ), ((q.y - s.y : ℚ) : ℝ)⟩ with hz2def
  have hz1ne : z1 ≠ 0 := by
    intro h0
    rw [Complex.ext_iff] at h0
    simp only [Complex.zero_re, Complex.zero_im] at h0
    have hx : p.x - s.x = 0 := by exact_mod_cast h0.1
    have hy : p.y - s.y = 0 := by exact_mod_cast h0.2
    rcases hp with hp | ⟨hpy, hpx⟩
    · linarith [sub_eq_zero.mp hy]
    · linarith [sub_eq_zero.mp hx]
  have hz2ne : z2 ≠ 0 := by
    intro h0
    rw [Complex.ext_iff] at h0
    simp only [Complex.zero_re, Complex.zero_im] at h0
    have hx : q.x - s.x = 0 := by exact_mod_cast h0.1
    have hy : q.y - s.y = 0 := by exact_mod_cast h0.2
    rcases hq with hq | ⟨hqy, hqx⟩
    · linarith [sub_eq_zero.mp hy]
    · linarith [sub_eq_zero.mp hx]
  have habs1 : Complex.abs z1 ≠ 0 := by
    simpa using hz1ne
  have habs2 : Complex.abs z2 ≠ 0 := by
    simpa using hz2ne
  have hre1 : z1.re = Complex.abs z1 * Real.cos z1.arg := by
    rw [Complex.cos_arg hz1ne]
    field_simp
  have him1 : z1.im = Complex.abs z1 * Real.sin z1.arg := by
    rw [Complex.sin_arg]
    field_simp
  have hre2 : z2.re = Complex.abs z2 * Real.cos z2.arg := by
    rw [Complex.cos_arg hz2ne]
    field_simp
  have him2 : z2.im = Complex.abs z2 * Real.sin z2.arg := by
    rw [Complex.sin_arg]
    field_simp
  have hcast : (HullCalculator.crossProduct s p q : ℝ) = z1.re * z2.im - z1.im * z2.re := by
    show (((p.x - s.x) * (q.y - s.y) - (p.y - s.y) * (q.x - s.x) : ℚ) : ℝ) = _
    push_cast
    rfl
  have harg1nn : 0 ≤ z1.arg := by
    rw [Complex.arg_nonneg_iff]
    show (0 : ℝ) ≤ ((p.y - s.y : ℚ) : ℝ)
    rcases hp with hp | ⟨hpy, _⟩
    · have : (0 : ℚ) ≤ p.y - s.y := by linarith
      exact_mod_cast this
    · have : (0 : ℚ) ≤ p.y - s.y := by linarith [hpy.symm.le]
      exact_mod_cast this
  have harg2pi : z2.arg ≤ Real.pi := Complex.arg_le_pi z2
  have hsin : 0 ≤ Real.sin (z2.arg - z1.arg) := by
    apply Real.sin_nonneg_of_nonneg_of_le_pi
    · exact sub_nonneg.mpr h
    · have := Real.pi_pos
      linarith
  have : (0 : ℝ) ≤ (HullCalculator.crossProduct s p q : ℝ) := by
    rw [hcast, hre1, him1, hre2, him2]
    have hfact : Complex.abs z1 * Real.cos z1.arg * (Complex.abs z2 * Real.sin z2.arg) -
        Complex.abs z1 * Real.sin z1.arg * (Complex.abs z2 * Real.cos z2.arg) =
        Complex.abs z1 * Complex.abs z2 * Real.sin (z2.arg - z1.arg) := by
      rw [Real.sin_sub]
      ring
    rw [hfact]
    have h1 : 0 ≤ Complex.abs z1 := AbsoluteValue.nonneg _ _
    have h2 : 0 ≤ Complex.abs z2 := AbsoluteValue.nonneg _ _
    positivity
  exact_mod_cast this

/-- Membership in the angularly sorted list is membership in the
filtered unique points. -/
theorem sortedByAngle_mem (start : Point) (pts : List Point) (p : Point) :
    p ∈ HullCalculator.sortedByAngle start pts ↔
      p ∈ pts ∧ p ≠ start := by
  unfold HullCalculator.sortedByAngle
  rw [(List.mergeSort_perm _ _).mem_iff, List.mem_filter]
  simp

/-- The angularly sorted list is pairwise cross-product non-negative
around the anchor, provided every entry lies in the anchor's upper
half-plane. -/
theorem sortedByAngle_pairwise_cross (start : Point) (pts : List Point)
    (habove : ∀ p ∈ pts, p ≠ start → HullCalculator.aboveStart start p) :
    List.Pairwise (fun a b => 0 ≤ HullCalculator.crossProduct start a b)
      (HullCalculator.sortedByAngle start pts) := by
  have htrans : ∀ a b c : Point, HullCalculator.angleLE start a b = true →
      HullCalculator.angleLE start b c = true →
      HullCalculator.angleLE start a c = true := by
    intro a b c hab hbc
    simp only [HullCalculator.angleLE, decide_eq_true_eq] at hab hbc ⊢
    exact le_trans hab hbc
  have htotal : ∀ a b : Point,
      (HullCalculator.angleLE start a b || HullCalculator.angleLE start b a) = true := by
    intro a b
    simp only [HullCalculator.angleLE, Bool.or_eq_true, decide_eq_true_eq]
    exact le_total _ _
  have hpair := List.sorted_mergeSort htrans htotal
    (pts.filter (fun p => decide (p ≠ start)))
  refine hpair.imp_of_mem ?_
  intro a b ha hb hab
  have ha' : a ∈ pts ∧ a ≠ start := (sortedByAngle_mem start pts a).mp ha
  have hb' : b ∈ pts ∧ b ≠ start := (sortedByAngle_mem start pts b).mp hb
  exact angle_mono_cross start a b (habove a ha'.1 ha'.2) (habove b hb'.1 hb'.2)
    (by simpa only [HullCalculator.angleLE, decide_eq_true_eq] using hab)

/-- Invariant of the Graham scan fold: the stack stays non-empty, its
bottom is the anchor, the entries above the bottom are (top-first) a
reversed sublist of the processed input, and all its hull-order
triples turn strictly counter-clockwise. -/
theorem scan_invariant (start : Point) :
    ∀ (l stk done : List Point),
      stk ≠ [] →
      (∃ u, stk = u ++ [start] ∧ u.reverse.Sublist done) →
      HullCalculator.StackCCW stk →
      (l.foldl HullCalculator.grahamStep stk ≠ [] ∧
       (∃ u, l.foldl HullCalculator.grahamStep stk = u ++ [start] ∧
         u.reverse.Sublist (done ++ l)) ∧
       HullCalculator.StackCCW (l.foldl HullCalculator.grahamStep stk)) := by
  intro l
  induction l with
  | nil =>
    intro stk done h1 h2 h3
    rw [List.foldl_nil]
    refine ⟨h1, ?_, h3⟩
    obtain ⟨u, hu, husub⟩ := h2
    exact ⟨u, hu, by simpa using husub⟩
  | cons q t ih =>
    intro stk done h1 h2 h3
    rw [List.foldl_cons]
    obtain ⟨u, hu, husub⟩ := h2
    have hsuf : HullCalculator.popWhile q stk <:+ stk := popWhile_suffix q stk
    have hne : HullCalculator.popWhile q stk ≠ [] := popWhile_ne_nil q stk h1
    obtain ⟨pre, hpre⟩ := hsuf
    rcases (HullCalculator.popWhile q stk).eq_nil_or_concat with habs | ⟨u2, a, hu2⟩
    · exact absurd habs hne
    · rw [List.concat_eq_append] at hu2
      have hsplit : (pre ++ u2) ++ [a] = u ++ [start] := by
        rw [List.append_assoc, ← hu2, hpre, hu]
      have hlast : a = start := by
        have h1' := congrArg (fun l => l.getLastD start) hsplit
        simpa using h1'
      rw [hlast] at hu2 hsplit
      have hpreu : pre ++ u2 = u := List.append_cancel_right hsplit
      have hsub2 : u2.reverse.Sublist done := by
        have : u2.reverse.Sublist u.reverse := by
          rw [← hpreu, List.reverse_append]
          exact List.sublist_append_left _ _
        exact this.trans husub
      have hstk' : HullCalculator.grahamStep stk q =
          (q :: u2) ++ [start] := by
        unfold HullCalculator.grahamStep
        rw [hu2]
        rfl
      have hccw' : HullCalculator.StackCCW (HullCalculator.grahamStep stk q) := by
        unfold HullCalculator.grahamStep
        have hccwpop : HullCalculator.StackCCW (HullCalculator.popWhile q stk) :=
          StackCCW_suffix stk _ (popWhile_suffix q stk) h3
        match hpw : HullCalculator.popWhile q stk with
        | [] => trivial
        | [x] => trivial
        | t' :: s' :: rest' =>
          refine ⟨popWhile_post q stk t' s' rest' hpw, ?_⟩
          rw [← hpw]
          exact hccwpop
      have hresult := ih (HullCalculator.grahamStep stk q) (done ++ [q])
        (by rw [hstk']; simp)
        ⟨q :: u2, hstk', by
          rw [List.reverse_cons]
          exact List.Sublist.append hsub2 (List.Sublist.refl [q])⟩
        hccw'
      refine ⟨hresult.1, ?_, hresult.2.2⟩
      obtain ⟨u3, hu3, hu3sub⟩ := hresult.2.1
      exact ⟨u3, hu3, by simpa [List.append_assoc] using hu3sub⟩

/-- Cyclic identity: the turn at `a` through `b` back to `s` equals the
turn at `s` through `a` to `b`. -/
theorem crossProduct_cycle1 (s a b : Point) :
    HullCalculator.crossProduct a b s = HullCalculator.crossProduct s a b := by
  unfold HullCalculator.crossProduct
  ring

/-- Cyclic identity: the turn at `a` through `s` to `b` equals the turn
at `s` through `b` to `a`. -/
theorem crossProduct_cycle2 (s a b : Point) :
    HullCalculator.crossProduct a s b = HullCalculator.crossProduct s b a := by
  unfold HullCalculator.crossProduct
  ring

/-- A triple that revisits its first point is degenerate. -/
theorem crossProduct_self (a b : Point) :
    HullCalculator.crossProduct a b a = 0 := by
  unfold HullCalculator.crossProduct
  ring

/-- getD version of reverse indexing. -/
theorem getD_reverse (l : List Point) (i : ℕ) (h : i < l.length) (d : Point) :
    l.reverse.getD i d = l.getD (l.length - 1 - i) d := by
  rw [List.getD_eq_getElem _ _ (by simpa using h),
    List.getD_eq_getElem _ _ (by omega), List.getElem_reverse]

/-- getD version of the stack convexity invariant. -/
theorem StackCCW_getD (l : List Point) (h : HullCalculator.StackCCW l)
    (i : ℕ) (hi : i + 2 < l.length) (d : Point) :
    0 < HullCalculator.crossProduct (l.getD (i + 2) d) (l.getD (i + 1) d) (l.getD i d) := by
  rw [List.getD_eq_getElem _ _ hi, List.getD_eq_getElem _ _ (by omega),
    List.getD_eq_getElem _ _ (by omega)]
  exact StackCCW_getElem l h i hi

/-- C3: on any input accepted by the guards (at least 3 points, at
least 3 surviving deduplication), calculateConvexHull succeeds, every
returned boundary point is an input point, every three consecutive
boundary points turn strictly counter-clockwise (cross product > 0),
and cyclically (including the two wrap-around triples) every three
consecutive boundary points turn counter-clockwise or are collinear
(cross product ≥ 0), the collinear edge cases being allowed. -/
theorem C3_convexHull_ccw (points : List Point)
    (h1 : 3 ≤ points.length)
    (h2 : 3 ≤ (HullCalculator.removeDuplicatePoints points).length) :
    HullCalculator.calculateConvexHull points =
      .ok (HullCalculator.convexHullPoints points) ∧
    (∀ p ∈ HullCalculator.convexHullPoints points, p ∈ points) ∧
    (∀ i, i + 2 < (HullCalculator.convexHullPoints points).length →
      0 < HullCalculator.crossProduct
        ((HullCalculator.convexHullPoints points).getD i ⟨0, 0⟩)
        ((HullCalculator.convexHullPoints points).getD (i + 1) ⟨0, 0⟩)
        ((HullCalculator.convexHullPoints points).getD (i + 2) ⟨0, 0⟩)) ∧
    (∀ i, i < (HullCalculator.convexHullPoints points).length →
      0 ≤ HullCalculator.crossProduct
        ((HullCalculator.convexHullPoints points).getD i ⟨0, 0⟩)
        ((HullCalculator.convexHullPoints points).getD
          ((i + 1) % (HullCalculator.convexHullPoints points).length) ⟨0, 0⟩)
        ((HullCalculator.convexHullPoints points).getD
          ((i + 2) % (HullCalculator.convexHullPoints points).length) ⟨0, 0⟩)) := by
  set unique := HullCalculator.removeDuplicatePoints points with huniquedef
  have huniq_ne : unique ≠ [] := by
    intro h
    rw [h] at h2
    simp at h2
  set start := HullCalculator.findStart unique with hstartdef
  set sorted := HullCalculator.sortedByAngle start unique with hsorteddef
  set r := HullCalculator.scanStack start sorted with hrdef
  have hull_eq : HullCalculator.convexHullPoints points = r.reverse := rfl
  have hinv := scan_invariant start sorted [start] []
    (by simp) ⟨[], by simp, by simp⟩ trivial
  have hfold : sorted.foldl HullCalculator.grahamStep [start] = r := rfl
  rw [hfold] at hinv
  obtain ⟨hrne, ⟨u, hu, husub⟩, hccw⟩ := hinv
  rw [List.nil_append] at husub
  have htail : r.reverse = start :: u.reverse := by
    rw [hu]
    simp
  have hstartmem : start ∈ points := by
    rw [hstartdef]
    exact removeDuplicatePoints_subset points _ (findStart_mem unique huniq_ne)
  have habove : ∀ p ∈ unique, p ≠ start → HullCalculator.aboveStart start p :=
    fun p hp hne => aboveStart_of_min start p (findStart_min unique p hp) hne
  have hpair : List.Pairwise (fun a b => 0 ≤ HullCalculator.crossProduct start a b) sorted :=
    sortedByAngle_pairwise_cross start unique habove
  have hpairtail : List.Pairwise (fun a b => 0 ≤ HullCalculator.crossProduct start a b)
      u.reverse := hpair.sublist husub
  have hpairD : ∀ i j, i < j → j < u.reverse.length →
      0 ≤ HullCalculator.crossProduct start (u.reverse.getD i ⟨0, 0⟩)
        (u.reverse.getD j ⟨0, 0⟩) := by
    intro i j hij hj
    have := List.pairwise_iff_getElem.mp hpairtail i j (by omega) hj hij
    rwa [List.getD_eq_getElem _ _ (by omega), List.getD_eq_getElem _ _ hj]
  have hlen : r.reverse.length = u.reverse.length + 1 := by
    rw [htail]
    simp
  have hrlen : r.length = r.reverse.length := (List.length_reverse r).symm
  have hguard : HullCalculator.calculateConvexHull points =
      .ok (HullCalculator.convexHullPoints points) := by
    unfold HullCalculator.calculateConvexHull
    rw [← huniquedef]
    rw [if_neg (by omega), if_neg (by omega)]
  have hmem : ∀ p ∈ HullCalculator.convexHullPoints points, p ∈ points := by
    intro p hp
    rw [hull_eq, htail] at hp
    rcases List.mem_cons.mp hp with rfl | hp'
    · exact hstartmem
    · have hs : p ∈ sorted := husub.subset hp'
      have := (sortedByAngle_mem start unique p).mp hs
      exact removeDuplicatePoints_subset points p this.1
  have hstrict : ∀ i, i + 2 < (HullCalculator.convexHullPoints points).length →
      0 < HullCalculator.crossProduct
        ((HullCalculator.convexHullPoints points).getD i ⟨0, 0⟩)
        ((HullCalculator.convexHullPoints points).getD (i + 1) ⟨0, 0⟩)
        ((HullCalculator.convexHullPoints points).getD (i + 2) ⟨0, 0⟩) := by
    intro i hi
    rw [hull_eq] at hi ⊢
    rw [List.length_reverse] at hi
    rw [getD_reverse r i (by omega), getD_reverse r (i + 1) (by omega),
      getD_reverse r (i + 2) (by omega)]
    have e1 : r.length - 1 - i = (r.length - 3 - i) + 2 := by omega
    have e2 : r.length - 1 - (i + 1) = (r.length - 3 - i) + 1 := by omega
    have e3 : r.length - 1 - (i + 2) = r.length - 3 - i := by omega
    rw [e1, e2, e3]
    exact StackCCW_getD r hccw (r.length - 3 - i) (by omega) ⟨0, 0⟩
  refine ⟨hguard, hmem, hstrict, ?_⟩
  intro i hi
  rw [hull_eq] at hi ⊢
  set n := r.reverse.length with hndef
  have hn1 : 1 ≤ n := by omega
  by_cases hsmall : n ≤ 2
  · have hmod : (i + 2) % n = i := by
      interval_cases n <;> omega
    rw [hmod]
    have hx := crossProduct_self (r.reverse.getD i ⟨0, 0⟩)
      (r.reverse.getD ((i + 1) % n) ⟨0, 0⟩)
    rw [hx]
  · have hn3 : 3 ≤ n := by omega
    rcases lt_trichotomy (i + 2) n with hlt | heq | hgt
    · have hmod1 : (i + 1) % n = i + 1 := Nat.mod_eq_of_lt (by omega)
      have hmod2 : (i + 2) % n = i + 2 := Nat.mod_eq_of_lt hlt
      rw [hmod1, hmod2]
      exact le_of_lt (hstrict i (by rw [hull_eq]; omega))
    · -- i = n - 2
      have hieq : i = n - 2 := by omega
      have hmod1 : (i + 1) % n = n - 1 := by
        rw [hieq]
        rw [show n - 2 + 1 = n - 1 by omega]
        exact Nat.mod_eq_of_lt (by omega)
      have hmod2 : (i + 2) % n = 0 := by
        rw [hieq, show n - 2 + 2 = n by omega]
        exact Nat.mod_self n
      rw [hmod1, hmod2, htail, hieq]
      rw [show (start :: u.reverse).getD 0 ⟨0, 0⟩ = start from rfl]
      rw [show n - 2 = (n - 3) + 1 by omega, List.getD_cons_succ,
        show n - 1 = (n - 2) + 1 by omega, List.getD_cons_succ]
      rw [crossProduct_cycle1]
      exact hpairD (n - 3) (n - 2) (by omega) (by omega)
    · -- i = n - 1
      have hieq : i = n - 1 := by omega
      have hmod1 : (i + 1) % n = 0 := by
        rw [hieq, show n - 1 + 1 = n by omega]
        exact Nat.mod_self n
      have hmod2 : (i + 2) % n = 1 := by
        rw [hieq, show n - 1 + 2 = 1 + n by omega, Nat.add_mod_right 1 n]
        exact Nat.mod_eq_of_lt (by omega)
      rw [hmod1, hmod2, htail, hieq]
      rw [show (start :: u.reverse).getD 0 ⟨0, 0⟩ = start from rfl]
      rw [show n - 1 = (n - 2) + 1 by omega, List.getD_cons_succ,
        show (1 : ℕ) = 0 + 1 from rfl, List.getD_cons_succ]
      rw [crossProduct_cycle2]
      exact hpairD 0 (n - 2) (by omega) (by omega)

/-- Concrete instance discharging the hypotheses of C3_convexHull_ccw:
the right triangle {(0,0), (4,0), (0,3)} passes both guards. -/
theorem C3_witness :
    3 ≤ ([(⟨0, 0⟩ : Point), ⟨4, 0⟩, ⟨0, 3⟩]).length ∧
    3 ≤ (HullCalculator.removeDuplicatePoints [⟨0, 0⟩, ⟨4, 0⟩, ⟨0, 3⟩]).length ∧
    HullCalculator.calculateConvexHull [⟨0, 0⟩, ⟨4, 0⟩, ⟨0, 3⟩] =
      .ok (HullCalculator.convexHullPoints [⟨0, 0⟩, ⟨4, 0⟩, ⟨0, 3⟩]) := by
  have ha : 3 ≤ ([(⟨0, 0⟩ : Point), ⟨4, 0⟩, ⟨0, 3⟩]).length := by norm_num
  have hb : 3 ≤ (HullCalculator.removeDuplicatePoints [⟨0, 0⟩, ⟨4, 0⟩, ⟨0, 3⟩]).length := by
    norm_num [HullCalculator.removeDuplicatePoints]
  exact ⟨ha, hb, (C3_convexHull_ccw _ ha hb).1⟩
